import Mathlib

set_option maxRecDepth 4000

/-!
# Verification of the EasierBanking recurring-pattern / liquidity engine

Shallow embedding of `src/utils/recurringTransactions.ts` and
`src/utils/safeToSpend.ts` (the latter appears as an unnamed source part).

Modelling conventions:
* JS numbers (amounts, averages) are modelled as exact rationals `ℚ`;
  the literal `0.1` becomes `1/10`, `0.2` becomes `1/5`.
* Calendar dates (`tradeDate` ISO strings, `Date` objects) are modelled as
  proleptic-Gregorian civil dates `CivilDate` (year ≥ 1); `date-fns`'s
  `differenceInDays` becomes subtraction of day numbers (`toDays`), which is
  exact because no time-of-day component is relevant.
* The impure `new Date()` ("today", the reference date) is modelled as an
  explicit `today : Int` day-number parameter.
* JS `x / 0` yields `NaN`/`Infinity`, and every comparison with `NaN` is
  false.  Where the source divides by a possibly-zero denominator inside a
  comparison (the per-gap deviation check), the embedding models this with an
  explicit zero-denominator branch that makes the comparison false
  (`devLtB`), matching the JS outcome (`NaN < 0.2` and `Infinity < 0.2` are
  both false for the non-negative numerators that occur there).
* JS truthiness on optional numeric rule fields (`rule.intervalDays || 30`,
  `rule.expectedAmount || 0`, …) is modelled with explicit `Option` matches
  that treat `some 0` like `none`, exactly as `0` is falsy in JS.
* The unbounded `while` loops (date advancement in `projectLiquidity` and
  `calculateSafeToSpend`) are modelled with an explicit fuel parameter and an
  `Option` result: `none` means the fuel bound was hit, so a `some` result is
  exactly a value the JS loop would produce.
-/

namespace EB

/-! ## Calendar arithmetic (date-fns / JS Date model) -/

/-- A civil (proleptic Gregorian) calendar date, the model of an ISO
`yyyy-mm-dd` date string and of a JS `Date` at midnight. -/
structure CivilDate where
  year : Nat
  month : Nat
  day : Nat
deriving DecidableEq, Repr

/-- Gregorian leap-year test. -/
def isLeapB (y : Nat) : Bool :=
  (y % 4 == 0 && y % 100 != 0) || y % 400 == 0

/-- Number of days in a month (Gregorian). -/
def daysInMonth (y m : Nat) : Nat :=
  match m with
  | 1 => 31 | 2 => if isLeapB y then 29 else 28 | 3 => 31 | 4 => 30
  | 5 => 31 | 6 => 30 | 7 => 31 | 8 => 31 | 9 => 30 | 10 => 31
  | 11 => 30 | 12 => 31 | _ => 30

/-- Days strictly before month `m` within year `y`. -/
def daysBeforeMonthN (y m : Nat) : Nat :=
  (match m with
   | 1 => 0 | 2 => 31 | 3 => 59 | 4 => 90 | 5 => 120 | 6 => 151
   | 7 => 181 | 8 => 212 | 9 => 243 | 10 => 273 | 11 => 304 | 12 => 334
   | _ => 0)
  + (if 3 ≤ m ∧ isLeapB y then 1 else 0)

/-- Number of Gregorian leap years in `[1, y]`. -/
def leapsBefore (y : Nat) : Nat :=
  y / 4 + y / 400 - y / 100

/-- Day number of a civil date: days since 0001-01-01 (which is day 0). -/
def toDays (c : CivilDate) : Nat :=
  365 * (c.year - 1) + leapsBefore (c.year - 1)
    + daysBeforeMonthN c.year c.month + (c.day - 1)

/-- Inverse of `toDays` on valid dates (Howard Hinnant's `civil_from_days`
algorithm, shifted so that day 0 is 0001-01-01). -/
def ofDays (n : Nat) : CivilDate :=
  let z := n + 306
  let era := z / 146097
  let doe := z % 146097
  let yoe := ((doe + doe / 36524) - (doe / 1460 + doe / 146096)) / 365
  let y := yoe + era * 400
  let doy := doe - ((365 * yoe + yoe / 4) - yoe / 100)
  let mp := (5 * doy + 2) / 153
  let d := (doy + 1) - (153 * mp + 2) / 5
  let m := if mp < 10 then mp + 3 else mp - 9
  if m ≤ 2 then ⟨y + 1, m, d⟩ else ⟨y, m, d⟩

/-- `ofDays` on an `Int` day number.  Day numbers before 0001-01-01 do not
occur in this development (valid dates have year ≥ 1). -/
def ofDaysZ (n : Int) : CivilDate := ofDays n.toNat

/-- Validity of a civil date. -/
def ValidDate (c : CivilDate) : Prop :=
  1 ≤ c.year ∧ 1 ≤ c.month ∧ c.month ≤ 12 ∧ 1 ≤ c.day ∧ c.day ≤ daysInMonth c.year c.month

instance : DecidablePred ValidDate := fun c => by
  unfold ValidDate; infer_instance

/-- date-fns `addMonths d 1`: next month, day-of-month clamped to the target
month's length. -/
def addMonth (c : CivilDate) : CivilDate :=
  if c.month = 12 then ⟨c.year + 1, 1, min c.day 31⟩
  else ⟨c.year, c.month + 1, min c.day (daysInMonth c.year (c.month + 1))⟩

/-- date-fns `lastDayOfMonth`. -/
def lastDayOfMonth (c : CivilDate) : CivilDate :=
  ⟨c.year, c.month, daysInMonth c.year c.month⟩

/-- One step of the monthly projection loop:
`lastDayOfMonth (addMonths nextDate 1)`. -/
def monthStep (c : CivilDate) : CivilDate :=
  lastDayOfMonth (addMonth c)

/-! ## Data model (`types/banking.ts`, `types/recurringRules.ts`) -/

inductive TxType | credit | debit
deriving DecidableEq, Repr

/-- `Transaction` from `types/banking.ts` (the fields the engine never reads
— `bookingDate`, `valueDate`, `balance` — are omitted). -/
structure Transaction where
  id : String
  tradeDate : CivilDate
  description : String
  amount : ℚ
  type : TxType
  category : String
deriving DecidableEq, Repr

/-- `ManualRecurringRule` from `types/recurringRules.ts` (metadata fields
`createdAt`, `notes` are never read by the engine and are omitted).
Absent optional fields are `none`. -/
structure ManualRecurringRule where
  id : String
  type : TxType
  descriptionPattern : String
  category : Option String
  dayRangeStart : Option Nat
  dayRangeEnd : Option Nat
  intervalDays : Option Int
  expectedAmount : Option ℚ
  amountTolerance : Option ℚ
  useAverage : Bool
  enabled : Bool
  isExclude : Bool
deriving DecidableEq, Repr

inductive Frequency | weekly | biWeekly | monthly | quarterly | yearly
deriving DecidableEq, Repr

/-- `RecurringTransaction` (engine output).  `lastCharged` is the day number
of the ISO date string; a JS entry without the optional `isExclude` /
`ruleId` fields has `isExclude = false` / `ruleId = none`. -/
structure RecurringTransaction where
  description : String
  category : String
  amount : ℚ
  frequency : Frequency
  intervalDays : Int
  lastCharged : Int
  occurrences : Nat
  transactionIds : List String
  isExclude : Bool
  ruleId : Option String
deriving DecidableEq, Repr

/-! ## Normalizer and small helpers -/

/-- JS `String.prototype.toLowerCase` (character-wise). -/
def lowerStr (s : String) : String := (s.data.map Char.toLower).asString

/-- `normalizeDescription`: lower-case, strip digits, strip characters other
than `\w` (letters, digits, underscore) and whitespace, trim, first 30
characters. -/
def normalizeDescription (description : String) : String :=
  ((((((description.data.map Char.toLower).filter (fun c => ¬ c.isDigit)).filter
      (fun c => c.isAlpha ∨ c.isDigit ∨ c = '_' ∨ c.isWhitespace)).dropWhile
        (·.isWhitespace)).reverse.dropWhile (·.isWhitespace)).reverse.take 30).asString

/-- Substring test on character lists (JS `String.prototype.includes`). -/
def substrAux (p : List Char) : List Char → Bool
  | [] => p.isEmpty
  | c :: rest => p.isPrefixOf (c :: rest) || substrAux p rest

/-- JS `haystack.includes needle`. -/
def strIncludes (haystack needle : String) : Bool :=
  substrAux needle.data haystack.data

/-- JS truthiness of an optional numeric field (`0` and absent are falsy). -/
def optTruthyQ : Option ℚ → Bool
  | none => false
  | some x => decide (x ≠ 0)

/-- JS truthiness of an optional integer field (`0` and absent are falsy). -/
def optTruthyI : Option Int → Bool
  | none => false
  | some k => decide (k ≠ 0)

/-- JS truthiness of an optional day-of-month field. -/
def optTruthyN : Option Nat → Bool
  | none => false
  | some k => decide (k ≠ 0)

/-- `Math.round` on an exact rational (round half up, as JS). -/
def roundQ (q : ℚ) : Int := ⌊q + 1 / 2⌋

/-- `determineFrequency` from the source: frequency band of a mean gap. -/
def determineFrequency (avgDays : ℚ) : Frequency :=
  if avgDays ≤ 9 then .weekly
  else if avgDays ≤ 16 then .biWeekly
  else if avgDays ≤ 35 then .monthly
  else if avgDays ≤ 100 then .quarterly
  else .yearly

/-- Consecutive day-gaps of a transaction list (`differenceInDays` of each
adjacent pair), as in the `intervals` loops of the source. -/
def gaps : List Transaction → List Int
  | a :: b :: rest => ((toDays b.tradeDate : Int) - (toDays a.tradeDate : Int)) :: gaps (b :: rest)
  | _ => []

/-- Mean of the day-gaps (`avgInterval`); an empty gap list yields `0/0`,
which Lean evaluates to `0` — the guard `0 < avgInterval` then fails exactly
as `NaN > 0` fails in JS. -/
def avgIntervalOf (txns : List Transaction) : ℚ :=
  (((gaps txns).sum : Int) : ℚ) / ((gaps txns).length : ℚ)

/-- One per-gap relative-deviation test `|gap − mean| / mean < 0.2`.
A zero mean makes the JS quotient `NaN` (or `Infinity` for a nonzero
numerator), so the comparison is false; the zero-denominator branch models
that. -/
def devLtB (avg : ℚ) (i : Int) : Bool :=
  if avg = 0 then false else decide (|(i : ℚ) - avg| / avg < 1 / 5)

/-- JS `Math.max(...)` over a list (the reachable uses are on non-empty
lists; the `[]` default is irrelevant junk). -/
def maxQ : List ℚ → ℚ
  | [] => 0
  | a :: rest => rest.foldl max a

/-- JS `Math.min(...)` over a list. -/
def minQ : List ℚ → ℚ
  | [] => 0
  | a :: rest => rest.foldl min a

/-- The most recent ≤ 12 transactions of a chronologically ordered group
(JS `txns.slice(-12)`). -/
def recentOf (txns : List Transaction) : List Transaction :=
  txns.drop (txns.length - 12)

/-- Chronological order on transactions (the `sort` comparator
`new Date(a.tradeDate).getTime() - new Date(b.tradeDate).getTime()`). -/
def dateLe (a b : Transaction) : Prop :=
  toDays a.tradeDate ≤ toDays b.tradeDate

instance : DecidableRel dateLe := fun a b => Nat.decLe _ _

instance : IsTotal Transaction dateLe := ⟨fun a b => Nat.le_total _ _⟩

instance : IsTrans Transaction dateLe := ⟨fun _ _ _ h h' => Nat.le_trans h h'⟩

/-- Descending-amount order on recurring entries (the final
`(a, b) => b.amount - a.amount` comparator). -/
def amountGe (a b : RecurringTransaction) : Prop :=
  b.amount ≤ a.amount

instance : DecidableRel amountGe := fun a b => inferInstanceAs (Decidable (b.amount ≤ a.amount))

/-! ## Grouping by normalized description -/

/-- Normalized grouping key of a transaction. -/
def normKey (t : Transaction) : String := normalizeDescription t.description

/-- First-occurrence deduplication (JS `Map` insertion order of keys). -/
def dedupFirst (seen : List String) : List String → List String
  | [] => []
  | a :: rest => if a ∈ seen then dedupFirst seen rest else a :: dedupFirst (a :: seen) rest

/-- The description groups of a (chronologically sorted) transaction list:
one group per normalized key, each group keeping the list's order — exactly
the contents of the JS `descriptionGroups` map. -/
def groupsOf (l : List Transaction) : List (List Transaction) :=
  (dedupFirst [] (l.map normKey)).map (fun k => l.filter (fun t => decide (normKey t = k)))

/-! ## Automatic pattern detector (`detectRecurringTransactions`, per group) -/

/-- The body of the `descriptionGroups.forEach` analysis in
`detectRecurringTransactions` (lines 65–117): threshold, gap consistency,
`avgInterval > 0` guard, staleness, representative amount.  Returns the
emitted entry, or `none` when the group is skipped. -/
def analyzeGroup (minOccurrences : Nat) (today : Int) (txns : List Transaction) :
    Option RecurringTransaction :=
  if txns.length < minOccurrences then none
  else
    let intervals := gaps txns
    let avgInterval := avgIntervalOf txns
    let isConsistent := intervals.all (devLtB avgInterval)
    if isConsistent = true ∧ 0 < avgInterval then
      match txns.getLast? with
      | none => none
      | some lastTransaction =>
        let daysSinceLastOccurrence : Int := today - (toDays lastTransaction.tradeDate : Int)
        if avgInterval * 2 < (daysSinceLastOccurrence : ℚ) then none
        else
          let recentTransactions := recentOf txns
          let amounts := txns.map (·.amount)
          let recentAmounts := recentTransactions.map (·.amount)
          let avgAmount := recentAmounts.sum / (recentAmounts.length : ℚ)
          let amountVariance := maxQ amounts - minQ amounts
          let hasVariableAmount := avgAmount * (1 / 10) < amountVariance
          some
            { description := lastTransaction.description
              category := lastTransaction.category
              amount := if hasVariableAmount then avgAmount else lastTransaction.amount
              frequency := determineFrequency avgInterval
              intervalDays := roundQ avgInterval
              lastCharged := (toDays lastTransaction.tradeDate : Int)
              occurrences := txns.length
              transactionIds := txns.map (·.id)
              isExclude := false
              ruleId := none }
    else none

/-! ## Manual rule matcher (`detectManualRecurringTransactions`) -/

/-- The per-transaction rule filter (lines 138–166 of the source). -/
def matchesRule (rule : ManualRecurringRule) (t : Transaction) : Bool :=
  if t.type ≠ rule.type then false
  else if ¬ (strIncludes (normalizeDescription t.description)
                (normalizeDescription rule.descriptionPattern) = true
             ∨ strIncludes (lowerStr t.description) (lowerStr rule.descriptionPattern) = true) then false
  else if h : ∃ c, rule.category = some c ∧ t.category ≠ c then false
  else
    let dayOk :=
      if optTruthyN rule.dayRangeStart = true ∨ optTruthyN rule.dayRangeEnd = true then
        let day := t.tradeDate.day
        if (∃ s, rule.dayRangeStart = some s ∧ s ≠ 0 ∧ day < s) then false
        else if (∃ e, rule.dayRangeEnd = some e ∧ e ≠ 0 ∧ e < day) then false
        else true
      else true
    if dayOk = false then false
    else
      match rule.expectedAmount, rule.amountTolerance with
      | some ea, some tol =>
          if ea ≠ 0 ∧ ea * tol < |t.amount - ea| then false else true
      | _, _ => true

/-- The body of the `rules.filter(enabled).forEach` loop: the entries a
single rule contributes (`[]` or a singleton). -/
def ruleEntry (today : Int) (transactions : List Transaction)
    (rule : ManualRecurringRule) : List RecurringTransaction :=
  let matched := transactions.filter (fun t => matchesRule rule t)
  if matched.isEmpty then
    -- Case 1: no matches — possibly a projected entry.
    let transactionsHaveType :=
      match transactions with
      | [] => true
      | t :: _ => decide (t.type = rule.type)
    if transactionsHaveType = true
        ∧ (optTruthyQ rule.expectedAmount = true ∨ rule.descriptionPattern ≠ "") then
      [{ description := "Manual: " ++ rule.descriptionPattern
         category := rule.category.getD "Uncategorized"
         amount := rule.expectedAmount.getD 0
         frequency :=
           if optTruthyI rule.intervalDays = true then
             determineFrequency ((rule.intervalDays.getD 30 : Int) : ℚ)
           else .monthly
         intervalDays := if optTruthyI rule.intervalDays = true then rule.intervalDays.getD 30 else 30
         lastCharged := today
         occurrences := 0
         transactionIds := []
         isExclude := false
         ruleId := some rule.id }]
    else []
  else
    let sortedM := matched.insertionSort dateLe
    match sortedM.getLast? with
    | none => []
    | some lastTransaction =>
      if rule.isExclude then
        [{ description := "Excluded: " ++ rule.descriptionPattern
           category := lastTransaction.category
           amount := 0
           frequency := .monthly
           intervalDays := 0
           lastCharged := (toDays lastTransaction.tradeDate : Int)
           occurrences := sortedM.length
           transactionIds := sortedM.map (·.id)
           isExclude := true
           ruleId := some rule.id }]
      else
        let intervals := gaps sortedM
        let avgInterval : ℚ :=
          if optTruthyI rule.intervalDays = true then ((rule.intervalDays.getD 30 : Int) : ℚ)
          else if 0 < intervals.length then
            ((intervals.sum : Int) : ℚ) / (intervals.length : ℚ)
          else 30
        let amounts := sortedM.map (·.amount)
        let avgAmount := amounts.sum / (amounts.length : ℚ)
        [{ description := "Manual: " ++ rule.descriptionPattern
           category := match rule.category with | some c => c | none => lastTransaction.category
           amount :=
             if rule.useAverage then avgAmount
             else match rule.expectedAmount with
               | some ea => if ea = 0 then lastTransaction.amount else ea
               | none => lastTransaction.amount
           frequency := determineFrequency avgInterval
           intervalDays := roundQ avgInterval
           lastCharged := (toDays lastTransaction.tradeDate : Int)
           occurrences := sortedM.length
           transactionIds := sortedM.map (·.id)
           isExclude := false
           ruleId := some rule.id }]

/-- `detectManualRecurringTransactions` (lines 130–238). -/
def detectManualRecurringTransactions (today : Int) (transactions : List Transaction)
    (rules : List ManualRecurringRule) : List RecurringTransaction :=
  (rules.filter (·.enabled)).flatMap (ruleEntry today transactions)

/-! ## Merger (`detectRecurringTransactions`) -/

/-- The transactions left for automatic detection after removing every id
matched by a manual result (lines 39–42). -/
def remainingTransactions (today : Int) (transactions : List Transaction)
    (rules : List ManualRecurringRule) : List Transaction :=
  let matchedIds :=
    (detectManualRecurringTransactions today transactions rules).flatMap (·.transactionIds)
  transactions.filter (fun t => decide (t.id ∉ matchedIds))

/-- The automatic-detection part of `detectRecurringTransactions`
(lines 44–118): sort the remaining transactions chronologically, group by
normalized description, analyze each group. -/
def automaticDetections (today : Int) (transactions : List Transaction)
    (minOccurrences : Nat) (rules : List ManualRecurringRule) : List RecurringTransaction :=
  (groupsOf ((remainingTransactions today transactions rules).insertionSort dateLe)).filterMap
    (analyzeGroup minOccurrences today)

/-- `detectRecurringTransactions` (lines 30–125): manual entries (without
exclusions) first, then automatic entries, sorted by descending amount. -/
def detectRecurringTransactions (today : Int) (transactions : List Transaction)
    (minOccurrences : Nat) (rules : List ManualRecurringRule) : List RecurringTransaction :=
  let manualResults := detectManualRecurringTransactions today transactions rules
  let activeManualResults := manualResults.filter (fun m => !m.isExclude)
  (activeManualResults ++ automaticDetections today transactions minOccurrences rules).insertionSort
    amountGe

/-! ## Liquidity event projector (`projectLiquidity`) -/

inductive EventType | income | expense
deriving DecidableEq, Repr

/-- One projected cash-flow event. -/
structure Event where
  type : EventType
  description : String
  amount : ℚ
deriving DecidableEq, Repr

/-- The JS `Map<string, Event[]>` keyed by `getDateKey` (`yyyy-mm-dd`), as an
insertion-ordered association list; a `CivilDate` stands for its key
string. -/
def EventMap := List (CivilDate × List Event)

/-- `events.get(dateKey)!.push(e)` (creating the entry when absent). -/
def addEvent : EventMap → CivilDate → Event → EventMap
  | [], k, e => [(k, [e])]
  | (k', es) :: rest, k, e =>
      if k' = k then (k', es ++ [e]) :: rest else (k', es) :: addEvent rest k e

/-- `events.get(dateKey) || []`. -/
def getEvents : EventMap → CivilDate → List Event
  | [], _ => []
  | (k', es) :: rest, k => if k' = k then es else getEvents rest k

/-- One forecast point (`LiquidityForecast` in the source); `date` models the
`yyyy-mm-dd` key string. -/
structure LiquidityForecast where
  date : CivilDate
  projectedBalance : ℚ
  event : Option Event
deriving DecidableEq, Repr

/-- The automatic-entry projection loop
(`while (differenceInDays(nextDate, startDate) <= daysToProject) { if
(nextDate >= startDate) record; nextDate += intervalDays }`), returning the
recorded day numbers.  `none` means the fuel ran out before the loop
exited. -/
def projectAutoDates (fuel : Nat) (next interval startN days : Int) : Option (List Int) :=
  if next - startN ≤ days then
    match fuel with
    | 0 => none
    | f + 1 =>
        (projectAutoDates f (next + interval) interval startN days).map
          (fun l => (if startN ≤ next then [next] else []) ++ l)
  else some []

/-- The manual-entry projection loop: project at the last calendar day of
each month while within the horizon. -/
def projectMonthlyDates (fuel : Nat) (next startD : CivilDate) (days : Int) :
    Option (List CivilDate) :=
  if (toDays next : Int) - (toDays startD : Int) ≤ days then
    match fuel with
    | 0 => none
    | f + 1 => (projectMonthlyDates f (monthStep next) startD days).map (next :: ·)
  else some []

/-- The first `nextDate` of the manual branch: `lastDayOfMonth startDate`,
rolled to the next month's last day if already past the start date. -/
def firstMonthly (startD : CivilDate) : CivilDate :=
  let nextDate := lastDayOfMonth startD
  if toDays nextDate < toDays startD then monthStep nextDate else nextDate

/-- Project one recurring entry into the event map (the body of the
`recurringIncomes.forEach` / `recurringExpenses.forEach` loops). -/
def applyEntry (fuel : Nat) (startD : CivilDate) (days : Int) (ty : EventType)
    (m : EventMap) (rt : RecurringTransaction) : Option EventMap :=
  if rt.ruleId.isSome then
    (projectMonthlyDates fuel (firstMonthly startD) startD days).map
      (fun ds => ds.foldl (fun acc d =>
        addEvent acc d ⟨ty, rt.description, rt.amount⟩) m)
  else
    (projectAutoDates fuel (rt.lastCharged + rt.intervalDays) rt.intervalDays
        (toDays startD : Int) days).map
      (fun ds => ds.foldl (fun acc n =>
        addEvent acc (ofDaysZ n) ⟨ty, rt.description, rt.amount⟩) m)

/-- Fold a list of entries into the event map, propagating fuel
exhaustion. -/
def applyEntries (fuel : Nat) (startD : CivilDate) (days : Int) (ty : EventType)
    (m : EventMap) : List RecurringTransaction → Option EventMap
  | [] => some m
  | rt :: rest =>
      match applyEntry fuel startD days ty m rt with
      | none => none
      | some m' => applyEntries fuel startD days ty m' rest

/-- The day-by-day forecast loop (`for day = 0; day <= daysToProject`):
apply every event of the day to the running balance and record one point
with the post-application balance and the first event of the day. -/
def buildForecast (m : EventMap) (startN : Int) :
    ℚ → List Nat → List LiquidityForecast
  | _, [] => []
  | balance, day :: rest =>
      let dateKey := ofDaysZ (startN + day)
      let dayEvents := getEvents m dateKey
      let balance' := dayEvents.foldl
        (fun b e => match e.type with | .income => b + e.amount | .expense => b - e.amount)
        balance
      { date := dateKey, projectedBalance := balance', event := dayEvents.head? }
        :: buildForecast m startN balance' rest

/-- `projectLiquidity` (lines 317–450), with explicit fuel for the two
unbounded projection loops: a `some` result is exactly the forecast the JS
function returns. -/
def projectLiquidity (fuel : Nat) (currentBalance : ℚ)
    (recurringIncomes recurringExpenses : List RecurringTransaction)
    (daysToProject : Int) (startDate : CivilDate) : Option (List LiquidityForecast) :=
  match applyEntries fuel startDate daysToProject .income [] recurringIncomes with
  | none => none
  | some m1 =>
    match applyEntries fuel startDate daysToProject .expense m1 recurringExpenses with
    | none => none
    | some m2 =>
      let dayList := if daysToProject < 0 then [] else List.range (daysToProject.toNat + 1)
      some (buildForecast m2 (toDays startDate : Int) currentBalance dayList)

/-! ## Safe-to-spend calculator (`calculateSafeToSpend`) -/

/-- `SafeToSpendDetails`; `nextPayday` is the day number of the returned ISO
date. -/
structure SafeToSpendDetails where
  safeToSpend : ℚ
  reservedForBills : ℚ
  daysUntilPayday : Int
  nextPayday : Int
  buffer : ℚ
  totalBalance : ℚ
deriving DecidableEq, Repr

/-- The date-advancement loop
(`while (isBefore(next, now)) next = addDays(next, interval)`); `none` means
the fuel ran out before the loop exited. -/
def advanceWhileBefore (fuel : Nat) (next interval now : Int) : Option Int :=
  if next < now then
    match fuel with
    | 0 => none
    | f + 1 => advanceWhileBefore f (next + interval) interval now
  else some next

/-- The `recurringExpenses.forEach` reservation loop: sum the amounts of the
expenses whose next occurrence is on or before the payday. -/
def reserveFold (fuel : Nat) (today payday : Int) :
    List RecurringTransaction → Option ℚ
  | [] => some 0
  | e :: rest =>
      match advanceWhileBefore fuel e.lastCharged e.intervalDays today with
      | none => none
      | some nextOccurrence =>
          match reserveFold fuel today payday rest with
          | none => none
          | some r => some ((if nextOccurrence ≤ payday then e.amount else 0) + r)

/-- `calculateSafeToSpend` (safe-to-spend source, lines 168–229), with
explicit fuel for the two date-advancement loops. -/
def calculateSafeToSpend (fuel : Nat) (today : Int) (currentBalance : ℚ)
    (transactions : List Transaction) (manualRules : List ManualRecurringRule)
    (buffer : ℚ) : Option SafeToSpendDetails :=
  let recurringIncomes :=
    detectRecurringTransactions today (transactions.filter (fun t => decide (t.type = .credit)))
      2 manualRules
  let recurringExpenses :=
    detectRecurringTransactions today (transactions.filter (fun t => decide (t.type = .debit)))
      2 manualRules
  let mainPayday := (recurringIncomes.insertionSort amountGe).head?
  let nextPaydayOpt : Option Int :=
    match mainPayday with
    | none => some (today + 30)
    | some p => advanceWhileBefore fuel p.lastCharged p.intervalDays today
  match nextPaydayOpt with
  | none => none
  | some nextPaydayDate =>
    match reserveFold fuel today nextPaydayDate recurringExpenses with
    | none => none
    | some reservedForBills =>
        some
          { safeToSpend := max 0 (currentBalance - reservedForBills - buffer)
            reservedForBills := reservedForBills
            daysUntilPayday := max 0 (nextPaydayDate - today)
            nextPayday := nextPaydayDate
            buffer := buffer
            totalBalance := currentBalance }

/-! ## Concrete example data used by witnesses and counterexamples -/

/-- Helper to build a concrete transaction. -/
def mkTx (i : Nat) (d : CivilDate) (desc : String) (amt : ℚ) (ty : TxType) : Transaction :=
  { id := toString i, tradeDate := d, description := desc, amount := amt, type := ty,
    category := "General" }

/-- Thirteen debits 30 days apart with amounts `50, 100 × 11, 100.5`: the
most recent 12 amounts are nearly constant, but the full-history range is
large. -/
def variableAmountGroup : List Transaction :=
  [mkTx 0 ⟨2023, 1, 10⟩ "GYM" 50 .debit,
   mkTx 1 ⟨2023, 2, 9⟩ "GYM" 100 .debit,
   mkTx 2 ⟨2023, 3, 11⟩ "GYM" 100 .debit,
   mkTx 3 ⟨2023, 4, 10⟩ "GYM" 100 .debit,
   mkTx 4 ⟨2023, 5, 10⟩ "GYM" 100 .debit,
   mkTx 5 ⟨2023, 6, 9⟩ "GYM" 100 .debit,
   mkTx 6 ⟨2023, 7, 9⟩ "GYM" 100 .debit,
   mkTx 7 ⟨2023, 8, 8⟩ "GYM" 100 .debit,
   mkTx 8 ⟨2023, 9, 7⟩ "GYM" 100 .debit,
   mkTx 9 ⟨2023, 10, 7⟩ "GYM" 100 .debit,
   mkTx 10 ⟨2023, 11, 6⟩ "GYM" 100 .debit,
   mkTx 11 ⟨2023, 12, 6⟩ "GYM" 100 .debit,
   mkTx 12 ⟨2024, 1, 5⟩ "GYM" (201 / 2) .debit]

/-- The reference date for `variableAmountGroup`: its last trade date. -/
def variableAmountToday : Int := (toDays ⟨2024, 1, 5⟩ : Int)

/-- Three same-day debits with one normalized description: the group meets
the default threshold, and its mean gap is zero. -/
def sameDayGroup : List Transaction :=
  [mkTx 0 ⟨2024, 1, 10⟩ "NETFLIX 1" 15 .debit,
   mkTx 1 ⟨2024, 1, 10⟩ "NETFLIX 2" 15 .debit,
   mkTx 2 ⟨2024, 1, 10⟩ "NETFLIX 3" 15 .debit]

/-- Three debits exactly 30 days apart (a perfectly regular group). -/
def regularGroup : List Transaction :=
  [mkTx 0 ⟨2024, 1, 1⟩ "GYM" 50 .debit,
   mkTx 1 ⟨2024, 1, 31⟩ "GYM" 50 .debit,
   mkTx 2 ⟨2024, 3, 1⟩ "GYM" 50 .debit]

/-- An enabled non-exclusion rule matching descriptions containing "gym". -/
def gymRule : ManualRecurringRule :=
  { id := "r1", type := .debit, descriptionPattern := "gym", category := none,
    dayRangeStart := none, dayRangeEnd := none, intervalDays := none,
    expectedAmount := none, amountTolerance := none, useAverage := false,
    enabled := true, isExclude := false }

/-- A single debit matching `gymRule`. -/
def gymTx : Transaction :=
  { id := "a", tradeDate := ⟨2024, 1, 10⟩, description := "GYM 123", amount := 50,
    type := .debit, category := "General" }

/-- An enabled exclusion rule matching descriptions containing "netflix". -/
def netflixExcludeRule : ManualRecurringRule :=
  { id := "rx", type := .debit, descriptionPattern := "netflix", category := none,
    dayRangeStart := none, dayRangeEnd := none, intervalDays := none,
    expectedAmount := none, amountTolerance := none, useAverage := false,
    enabled := true, isExclude := true }

/-- An enabled exclusion rule whose pattern matches nothing in an empty
transaction context. -/
def orphanExcludeRule : ManualRecurringRule :=
  { id := "ro", type := .debit, descriptionPattern := "storage", category := none,
    dayRangeStart := none, dayRangeEnd := none, intervalDays := none,
    expectedAmount := none, amountTolerance := none, useAverage := false,
    enabled := true, isExclude := true }

/-- The recurring expense of the worked `projectLiquidity` example:
amount 100, interval 30 days, last charged 2024-01-01, no rule id. -/
def sampleExpense : RecurringTransaction :=
  { description := "sub", category := "General", amount := 100, frequency := .monthly,
    intervalDays := 30, lastCharged := (toDays ⟨2024, 1, 1⟩ : Int), occurrences := 3,
    transactionIds := ["a", "b", "c"], isExclude := false, ruleId := none }

/-- An automatic recurring expense with `intervalDays = 0` (as produced for
a manual rule matching two same-day transactions, here fed directly to the
projector): its projection loop never advances. -/
def zeroIntervalExpense : RecurringTransaction :=
  { description := "z", category := "General", amount := 10, frequency := .monthly,
    intervalDays := 0, lastCharged := (toDays ⟨2024, 1, 1⟩ : Int), occurrences := 2,
    transactionIds := [], isExclude := false, ruleId := none }

/-- Two debits with the same trade date matched by `gymRule`: the manual
entry they produce has mean gap 0 and hence `intervalDays = 0`. -/
def sameDayGymPair : List Transaction :=
  [mkTx 0 ⟨2024, 1, 1⟩ "GYM 1" 30 .debit,
   mkTx 1 ⟨2024, 1, 1⟩ "GYM 2" 30 .debit]

/-! ## Helper lemmas about the automatic detector -/

/-- Inversion principle for `analyzeGroup`: everything that is true of an
emitted entry. -/
theorem analyzeGroup_spec {minOccurrences : Nat} {today : Int} {txns : List Transaction}
    {r : RecurringTransaction} (h : analyzeGroup minOccurrences today txns = some r) :
    minOccurrences ≤ txns.length ∧
    (gaps txns).all (devLtB (avgIntervalOf txns)) = true ∧
    0 < avgIntervalOf txns ∧
    ∃ lastT, txns.getLast? = some lastT ∧
      ((today - (toDays lastT.tradeDate : Int) : Int) : ℚ) ≤ avgIntervalOf txns * 2 ∧
      r = { description := lastT.description
            category := lastT.category
            amount :=
              if ((recentOf txns).map (·.amount)).sum / (((recentOf txns).map (·.amount)).length : ℚ) * (1 / 10)
                  < maxQ (txns.map (·.amount)) - minQ (txns.map (·.amount))
              then ((recentOf txns).map (·.amount)).sum / (((recentOf txns).map (·.amount)).length : ℚ)
              else lastT.amount
            frequency := determineFrequency (avgIntervalOf txns)
            intervalDays := roundQ (avgIntervalOf txns)
            lastCharged := (toDays lastT.tradeDate : Int)
            occurrences := txns.length
            transactionIds := txns.map (·.id)
            isExclude := false
            ruleId := none } := by
  simp only [analyzeGroup] at h
  split at h
  · exact absurd h (by simp)
  next h1 =>
    split at h
    next hB =>
      split at h
      · exact absurd h (by simp)
      next lastT hL =>
        split at h
        · exact absurd h (by simp)
        next hstale =>
          refine ⟨Nat.le_of_not_lt h1, hB.1, hB.2, lastT, hL, le_of_not_lt hstale, ?_⟩
          exact (Option.some_injective _ h).symm
    · exact absurd h (by simp)

/-- A positive mean gap forces a non-empty gap list. -/
theorem gaps_ne_nil_of_avg_pos {txns : List Transaction} (h : 0 < avgIntervalOf txns) :
    gaps txns ≠ [] := by
  intro hnil
  rw [avgIntervalOf, hnil] at h
  simp at h

/-- A non-empty gap list means at least two transactions. -/
theorem two_le_length_of_gaps_ne_nil {txns : List Transaction} (h : gaps txns ≠ []) :
    2 ≤ txns.length := by
  match txns with
  | [] => simp [gaps] at h
  | [a] => simp [gaps] at h
  | a :: b :: rest => simp

/-! ## Membership decompositions of the merged output -/

/-- Membership in the merged output is membership in the manual entries
(minus exclusions) or in the automatic entries. -/
theorem mem_detect_iff {today : Int} {txs : List Transaction} {minOcc : Nat}
    {rules : List ManualRecurringRule} {r : RecurringTransaction} :
    r ∈ detectRecurringTransactions today txs minOcc rules ↔
      (r ∈ detectManualRecurringTransactions today txs rules ∧ r.isExclude = false)
        ∨ r ∈ automaticDetections today txs minOcc rules := by
  unfold detectRecurringTransactions
  simp [List.mem_filter, and_assoc]

/-- Membership in the manual results is contribution by some enabled rule. -/
theorem mem_detectManual_iff {today : Int} {txs : List Transaction}
    {rules : List ManualRecurringRule} {r : RecurringTransaction} :
    r ∈ detectManualRecurringTransactions today txs rules ↔
      ∃ rule, rule ∈ rules ∧ rule.enabled = true ∧ r ∈ ruleEntry today txs rule := by
  unfold detectManualRecurringTransactions
  simp [List.mem_flatMap, List.mem_filter, and_assoc]

/-- Membership in the automatic results is emission from some description
group. -/
theorem mem_automatic_iff {today : Int} {txs : List Transaction} {minOcc : Nat}
    {rules : List ManualRecurringRule} {r : RecurringTransaction} :
    r ∈ automaticDetections today txs minOcc rules ↔
      ∃ g, g ∈ groupsOf ((remainingTransactions today txs rules).insertionSort dateLe)
        ∧ analyzeGroup minOcc today g = some r := by
  unfold automaticDetections
  simp [List.mem_filterMap]

/-- Each description group is a sublist (a filter) of the grouped list. -/
theorem mem_of_mem_group {l g : List Transaction} {t : Transaction}
    (hg : g ∈ groupsOf l) (ht : t ∈ g) : t ∈ l := by
  obtain ⟨k, -, rfl⟩ := List.mem_map.1 hg
  exact (List.mem_filter.1 ht).1

/-- Every manual entry carries its rule's id, and a zero-occurrence manual
entry is a projected one with no transaction ids. -/
theorem ruleEntry_basic {today : Int} {txs : List Transaction}
    {rule : ManualRecurringRule} {r : RecurringTransaction}
    (h : r ∈ ruleEntry today txs rule) :
    r.ruleId = some rule.id ∧ (r.occurrences = 0 → r.transactionIds = []) := by
  simp only [ruleEntry] at h
  split at h
  next hempty =>
    split at h
    · simp only [List.mem_singleton] at h
      subst h
      exact ⟨rfl, fun _ => rfl⟩
    · simp at h
  next hempty =>
    have hmne : txs.filter (fun t => matchesRule rule t) ≠ [] := by
      intro hnil
      exact hempty (by simp [hnil])
    have hne : (txs.filter (fun t => matchesRule rule t)).insertionSort dateLe ≠ [] := by
      intro hnil
      have hlen := List.length_insertionSort dateLe (txs.filter (fun t => matchesRule rule t))
      rw [hnil] at hlen
      exact hmne (List.eq_nil_of_length_eq_zero hlen.symm)
    split at h
    next hlast => exact absurd (List.getLast?_eq_none_iff.1 hlast) hne
    next lastT hlast =>
      have hlen : 1 ≤ ((txs.filter (fun t => matchesRule rule t)).insertionSort dateLe).length :=
        List.length_pos_of_ne_nil hne
      split at h
      · simp only [List.mem_singleton] at h
        subst h
        exact ⟨rfl, fun h0 => absurd h0 (by simpa using Nat.pos_iff_ne_zero.1 hlen)⟩
      · simp only [List.mem_singleton] at h
        subst h
        exact ⟨rfl, fun h0 => absurd h0 (by simpa using Nat.pos_iff_ne_zero.1 hlen)⟩

/-! ## Claim C5: staleness discards the group -/

/-- C5: a group that meets the occurrence threshold and has consistent gaps
contributes no `RecurringTransaction` to the automatic output when today is
more than `2 × meanGap` past its last transaction date: `analyzeGroup`
returns `none` on it, and the automatic output is by definition
`filterMap (analyzeGroup …)` over the groups
(`automaticDetections`), so the group is skipped. -/
theorem stale_group_not_emitted (minOccurrences : Nat) (today : Int)
    (txns : List Transaction) (lastT : Transaction)
    (hlen : minOccurrences ≤ txns.length)
    (hcons : (gaps txns).all (devLtB (avgIntervalOf txns)) = true)
    (hlast : txns.getLast? = some lastT)
    (hstale : avgIntervalOf txns * 2 < ((today - (toDays lastT.tradeDate : Int) : Int) : ℚ)) :
    analyzeGroup minOccurrences today txns = none := by
  by_contra hne
  obtain ⟨r, hr⟩ := Option.ne_none_iff_exists'.1 hne
  obtain ⟨-, -, -, lastT', hlast', hle, -⟩ := analyzeGroup_spec hr
  rw [hlast] at hlast'
  injection hlast' with he
  subst he
  exact absurd hstale (not_lt.2 hle)

/-- C5 witness: `regularGroup` (three debits 30 days apart) evaluated 100
days after its last occurrence satisfies every hypothesis, and the group is
discarded. -/
theorem stale_group_not_emitted_witness :
    (3 ≤ regularGroup.length
      ∧ (gaps regularGroup).all (devLtB (avgIntervalOf regularGroup)) = true
      ∧ regularGroup.getLast? = some (mkTx 2 ⟨2024, 3, 1⟩ "GYM" 50 .debit)
      ∧ avgIntervalOf regularGroup * 2
          < (((toDays ⟨2024, 3, 1⟩ : Int) + 100 - (toDays (mkTx 2 ⟨2024, 3, 1⟩ "GYM" 50 .debit).tradeDate : Int) : Int) : ℚ))
    ∧ analyzeGroup 3 ((toDays ⟨2024, 3, 1⟩ : Int) + 100) regularGroup = none :=
  ⟨by with_unfolding_all decide,
   stale_group_not_emitted 3 ((toDays ⟨2024, 3, 1⟩ : Int) + 100) regularGroup
     (mkTx 2 ⟨2024, 3, 1⟩ "GYM" 50 .debit) (by with_unfolding_all decide) (by with_unfolding_all decide) (by with_unfolding_all decide) (by with_unfolding_all decide)⟩

/-! ## Claim C4: the zero-mean guard versus the deviation division -/

/-- C4 counterexample: the claim says the deviation (variance) computation
never divides by a zero mean interval because `avgInterval > 0` is checked
first.  In the source the deviation map (line 80) runs before the
`avgInterval > 0` guard (line 83): `sameDayGroup` passes the only earlier
check (the occurrence threshold, line 66) with mean gap 0, so each per-gap
deviation `|0 − 0| / 0` is evaluated with a zero denominator (JS `NaN`,
modelled by `devLtB`'s zero-denominator branch, which is why its value at a
zero mean is `false` rather than a quotient comparison).  The group is then
discarded, so the division happens yet nothing is emitted. -/
theorem deviation_zero_mean_cex :
    3 ≤ sameDayGroup.length
    ∧ gaps (sameDayGroup.insertionSort dateLe) = [0, 0]
    ∧ avgIntervalOf (sameDayGroup.insertionSort dateLe) = 0
    ∧ devLtB (avgIntervalOf (sameDayGroup.insertionSort dateLe)) 0 = false
    ∧ detectRecurringTransactions (toDays ⟨2024, 1, 20⟩ : Int) sameDayGroup 3 [] = [] := by
  with_unfolding_all decide

/-- C4 (amended): the `avgInterval > 0` guard is conjoined with the
consistency check before any entry is emitted, so a zero-mean group is
always discarded — but the per-gap deviation computation itself runs before
that guard and does divide by the zero mean (yielding `NaN`/`Infinity` in
JS, which makes the consistency check fail). -/
theorem zero_mean_group_not_emitted (minOccurrences : Nat) (today : Int)
    (txns : List Transaction) (h : avgIntervalOf txns = 0) :
    analyzeGroup minOccurrences today txns = none := by
  by_contra hne
  obtain ⟨r, hr⟩ := Option.ne_none_iff_exists'.1 hne
  obtain ⟨-, -, hpos, -⟩ := analyzeGroup_spec hr
  rw [h] at hpos
  exact lt_irrefl 0 hpos

/-- C4 amended-claim witness: the same-day group has zero mean gap and is
discarded. -/
theorem zero_mean_group_not_emitted_witness :
    avgIntervalOf (sameDayGroup.insertionSort dateLe) = 0
    ∧ analyzeGroup 3 (toDays ⟨2024, 1, 20⟩ : Int) (sameDayGroup.insertionSort dateLe) = none :=
  ⟨by with_unfolding_all decide,
   zero_mean_group_not_emitted 3 (toDays ⟨2024, 1, 20⟩ : Int)
     (sameDayGroup.insertionSort dateLe) (by with_unfolding_all decide)⟩

/-! ## Claim C1: the representative amount -/

/-- C1 counterexample: for `variableAmountGroup` the amount range over the
most recent ≤ 12 occurrences (1/2) does not exceed 0.1 × the recent average
(2401/240), so the claim as stated mandates the most recent exact amount
201/2; the code instead takes the range over ALL occurrences (101/2),
classifies the amount as variable and emits the recent average 2401/24. -/
theorem amount_range_claim_cex :
    maxQ ((recentOf variableAmountGroup).map (·.amount))
        - minQ ((recentOf variableAmountGroup).map (·.amount))
      ≤ ((recentOf variableAmountGroup).map (·.amount)).sum
          / (((recentOf variableAmountGroup).map (·.amount)).length : ℚ) * (1 / 10)
    ∧ (detectRecurringTransactions variableAmountToday variableAmountGroup 3 []).map (·.amount)
        = [2401 / 24]
    ∧ ((2401 : ℚ) / 24) ≠ 201 / 2 := by
  with_unfolding_all decide

/-- C1 (amended): for every group that survives the threshold, consistency
and staleness checks, the variability test compares the amount range over
ALL occurrences of the group (not only the most recent 12) with 0.1 × the
average of the most recent ≤ 12 amounts; if the full range exceeds that
bound the representative amount is the recent average, otherwise it is the
most recent transaction's exact amount. -/
theorem amount_range_over_full_history (minOccurrences : Nat) (today : Int)
    (txns : List Transaction) (r : RecurringTransaction) (lastT : Transaction)
    (h : analyzeGroup minOccurrences today txns = some r)
    (hl : txns.getLast? = some lastT) :
    r.amount =
      if ((recentOf txns).map (·.amount)).sum / (((recentOf txns).map (·.amount)).length : ℚ) * (1 / 10)
          < maxQ (txns.map (·.amount)) - minQ (txns.map (·.amount))
      then ((recentOf txns).map (·.amount)).sum / (((recentOf txns).map (·.amount)).length : ℚ)
      else lastT.amount := by
  obtain ⟨-, -, -, lastT', hl', -, hr⟩ := analyzeGroup_spec h
  rw [hl] at hl'
  injection hl' with he
  subst he
  rw [hr]

/-- C1 amended-claim witness: the detector emits an entry for
`variableAmountGroup`, and its amount follows the full-history range
rule. -/
theorem amount_range_over_full_history_witness :
    ∃ r, analyzeGroup 3 variableAmountToday variableAmountGroup = some r ∧
      r.amount =
        if ((recentOf variableAmountGroup).map (·.amount)).sum
              / (((recentOf variableAmountGroup).map (·.amount)).length : ℚ) * (1 / 10)
            < maxQ (variableAmountGroup.map (·.amount)) - minQ (variableAmountGroup.map (·.amount))
        then ((recentOf variableAmountGroup).map (·.amount)).sum
              / (((recentOf variableAmountGroup).map (·.amount)).length : ℚ)
        else (mkTx 12 ⟨2024, 1, 5⟩ "GYM" (201 / 2) .debit).amount :=
  have hs : (analyzeGroup 3 variableAmountToday variableAmountGroup).isSome = true := by
    with_unfolding_all decide
  ⟨(analyzeGroup 3 variableAmountToday variableAmountGroup).get hs, (Option.some_get hs).symm,
   amount_range_over_full_history 3 variableAmountToday variableAmountGroup
     ((analyzeGroup 3 variableAmountToday variableAmountGroup).get hs)
     (mkTx 12 ⟨2024, 1, 5⟩ "GYM" (201 / 2) .debit)
     (Option.some_get hs).symm (by with_unfolding_all decide)⟩

/-! ## Claim C3: the occurrence invariant -/

/-- C3 counterexample: a single transaction matched by an enabled
non-exclusion rule yields a merged output whose only entry has
`occurrences = 1 < 3 = minOccurrences` with a non-empty `transactionIds` —
a rule-backed entry with matches below the threshold, which the claim as
stated does not allow. -/
theorem occurrences_invariant_cex :
    (detectRecurringTransactions (toDays ⟨2024, 2, 1⟩ : Int) [gymTx] 3 [gymRule]).map
        (fun r => (r.occurrences, r.transactionIds, r.ruleId))
      = [(1, ["a"], some "r1")]
    ∧ 1 < 3 := by
  with_unfolding_all decide

/-- C3 (amended): `occurrences ≥ minOccurrences` holds for every automatic
(non-rule-backed) entry of the merged output; a rule-backed entry instead
has `occurrences` equal to its number of matched transactions, which may be
smaller than `minOccurrences`, and equals 0 (with empty `transactionIds`)
exactly for projected rule entries. -/
theorem occurrences_invariant (today : Int) (txs : List Transaction) (minOcc : Nat)
    (rules : List ManualRecurringRule) (r : RecurringTransaction)
    (hr : r ∈ detectRecurringTransactions today txs minOcc rules) :
    (r.ruleId = none → minOcc ≤ r.occurrences)
    ∧ (r.occurrences = 0 → r.transactionIds = [] ∧ r.ruleId ≠ none) := by
  rcases mem_detect_iff.1 hr with ⟨hm, -⟩ | ha
  · obtain ⟨rule, -, -, hre⟩ := mem_detectManual_iff.1 hm
    obtain ⟨hid, hocc⟩ := ruleEntry_basic hre
    refine ⟨fun h0 => ?_, fun h0 => ⟨hocc h0, by rw [hid]; simp⟩⟩
    rw [hid] at h0
    exact absurd h0 (by simp)
  · obtain ⟨g, -, hg⟩ := mem_automatic_iff.1 ha
    obtain ⟨hlen, -, hpos, lastT, -, -, hrec⟩ := analyzeGroup_spec hg
    have h2 : 2 ≤ g.length :=
      two_le_length_of_gaps_ne_nil (gaps_ne_nil_of_avg_pos hpos)
    constructor
    · intro _
      rw [hrec]
      exact hlen
    · intro h0
      rw [hrec] at h0
      simp only at h0
      omega

/-- C3 amended-claim witness: the automatic entry for `regularGroup` is in
the merged output and satisfies the invariant. -/
theorem occurrences_invariant_witness :
    ∃ r, r ∈ detectRecurringTransactions (toDays ⟨2024, 3, 1⟩ : Int) regularGroup 3 []
      ∧ ((r.ruleId = none → 3 ≤ r.occurrences)
          ∧ (r.occurrences = 0 → r.transactionIds = [] ∧ r.ruleId ≠ none)) :=
  have hne : detectRecurringTransactions (toDays ⟨2024, 3, 1⟩ : Int) regularGroup 3 [] ≠ [] := by
    intro hnil
    have hlen : (detectRecurringTransactions (toDays ⟨2024, 3, 1⟩ : Int) regularGroup 3 []).length = 1 := by
      with_unfolding_all decide
    rw [hnil] at hlen
    exact absurd hlen (by simp)
  ⟨(detectRecurringTransactions (toDays ⟨2024, 3, 1⟩ : Int) regularGroup 3 []).head hne,
   List.head_mem hne,
   occurrences_invariant (toDays ⟨2024, 3, 1⟩ : Int) regularGroup 3 [] _ (List.head_mem hne)⟩

/-! ## Claim C6: exclusion rules -/

/-- A transaction matched by an enabled exclusion rule has its id collected
in the manual results' id pool (lines 39, 195–210). -/
theorem excluded_id_mem_matchedIds (today : Int) (txs : List Transaction)
    (rules : List ManualRecurringRule) (rule : ManualRecurringRule) (t : Transaction)
    (hrule : rule ∈ rules) (hen : rule.enabled = true) (hex : rule.isExclude = true)
    (ht : t ∈ txs) (hm : matchesRule rule t = true) :
    t.id ∈ (detectManualRecurringTransactions today txs rules).flatMap (·.transactionIds) := by
  have htm : t ∈ txs.filter (fun u => matchesRule rule u) := List.mem_filter.2 ⟨ht, hm⟩
  have hmne : txs.filter (fun u => matchesRule rule u) ≠ [] := List.ne_nil_of_mem htm
  have hne : (txs.filter (fun u => matchesRule rule u)).insertionSort dateLe ≠ [] := by
    intro hnil
    have hlen := List.length_insertionSort dateLe (txs.filter (fun u => matchesRule rule u))
    rw [hnil] at hlen
    exact hmne (List.eq_nil_of_length_eq_zero hlen.symm)
  obtain ⟨lastT, hlast⟩ := Option.ne_none_iff_exists'.1 (mt List.getLast?_eq_none_iff.1 hne)
  have hentry : ∃ e ∈ ruleEntry today txs rule, t.id ∈ e.transactionIds := by
    refine ⟨{ description := "Excluded: " ++ rule.descriptionPattern
              category := lastT.category
              amount := 0
              frequency := .monthly
              intervalDays := 0
              lastCharged := (toDays lastT.tradeDate : Int)
              occurrences := ((txs.filter (fun u => matchesRule rule u)).insertionSort dateLe).length
              transactionIds := ((txs.filter (fun u => matchesRule rule u)).insertionSort dateLe).map (fun u => u.id)
              isExclude := true
              ruleId := some rule.id }, ?_, ?_⟩
    · simp only [ruleEntry]
      rw [if_neg (by simp [hmne]), hlast, hex]
      exact List.mem_singleton_self _
    · exact List.mem_map_of_mem (fun u => u.id) ((List.mem_insertionSort dateLe).2 htm)
  obtain ⟨e, he, hte⟩ := hentry
  exact List.mem_flatMap.2
    ⟨e, mem_detectManual_iff.2 ⟨rule, hrule, hen, he⟩, hte⟩

/-- C6: a transaction matched by an enabled exclusion rule never has its id
inside any automatic entry's `transactionIds`, and no entry of the merged
output has `isExclude` set. -/
theorem exclusion_rule_suppresses (today : Int) (txs : List Transaction) (minOcc : Nat)
    (rules : List ManualRecurringRule) (rule : ManualRecurringRule) (t : Transaction)
    (hrule : rule ∈ rules) (hen : rule.enabled = true) (hex : rule.isExclude = true)
    (ht : t ∈ txs) (hm : matchesRule rule t = true) :
    (∀ r ∈ automaticDetections today txs minOcc rules, t.id ∉ r.transactionIds)
    ∧ (∀ r ∈ detectRecurringTransactions today txs minOcc rules, r.isExclude = false) := by
  constructor
  · intro r hr hid
    obtain ⟨g, hg, hga⟩ := mem_automatic_iff.1 hr
    obtain ⟨-, -, -, lastT, -, -, hrec⟩ := analyzeGroup_spec hga
    rw [hrec] at hid
    simp only at hid
    obtain ⟨u, hu, hui⟩ := List.mem_map.1 hid
    have hur : u ∈ remainingTransactions today txs rules :=
      (List.mem_insertionSort dateLe).1 (mem_of_mem_group hg hu)
    simp only [remainingTransactions, List.mem_filter, decide_eq_true_eq] at hur
    exact hur.2 (by
      rw [hui]
      exact excluded_id_mem_matchedIds today txs rules rule t hrule hen hex ht hm)
  · intro r hr
    rcases mem_detect_iff.1 hr with ⟨-, hf⟩ | ha
    · exact hf
    · obtain ⟨g, -, hga⟩ := mem_automatic_iff.1 ha
      obtain ⟨-, -, -, lastT, -, -, hrec⟩ := analyzeGroup_spec hga
      rw [hrec]

/-- C6 witness: the exclusion rule for "netflix" matches the first
transaction of `sameDayGroup`; no automatic entry carries its id and the
merged output carries no exclusion entry. -/
theorem exclusion_rule_suppresses_witness :
    (∀ r ∈ automaticDetections (toDays ⟨2024, 1, 20⟩ : Int) sameDayGroup 3 [netflixExcludeRule],
        (mkTx 0 ⟨2024, 1, 10⟩ "NETFLIX 1" 15 .debit).id ∉ r.transactionIds)
    ∧ (∀ r ∈ detectRecurringTransactions (toDays ⟨2024, 1, 20⟩ : Int) sameDayGroup 3 [netflixExcludeRule],
        r.isExclude = false) :=
  exclusion_rule_suppresses (toDays ⟨2024, 1, 20⟩ : Int) sameDayGroup 3 [netflixExcludeRule]
    netflixExcludeRule (mkTx 0 ⟨2024, 1, 10⟩ "NETFLIX 1" 15 .debit)
    (by with_unfolding_all decide) (by with_unfolding_all decide) (by with_unfolding_all decide)
    (by with_unfolding_all decide) (by with_unfolding_all decide)

/-! ## Claim C9: exclusion rules with zero matches project an entry -/

/-- C9: an enabled exclusion rule with a non-empty pattern and zero matches
(in an empty context or one whose first transaction has the rule's
direction) contributes a projected entry — `occurrences = 0`, no
transaction ids, no `isExclude` flag — to the merged output, instead of
suppressing anything. -/
theorem exclusion_zero_matches_projected (today : Int) (txs : List Transaction)
    (rules : List ManualRecurringRule) (minOcc : Nat) (rule : ManualRecurringRule)
    (hrule : rule ∈ rules) (hen : rule.enabled = true) (hex : rule.isExclude = true)
    (hpat : rule.descriptionPattern ≠ "")
    (hmatch : txs.filter (fun t => matchesRule rule t) = [])
    (hty : txs = [] ∨ ∃ t rest, txs = t :: rest ∧ t.type = rule.type) :
    ∃ r ∈ detectRecurringTransactions today txs minOcc rules,
      r.ruleId = some rule.id ∧ r.occurrences = 0 ∧ r.transactionIds = []
        ∧ r.isExclude = false := by
  have hentry : ∃ r ∈ ruleEntry today txs rule,
      r.ruleId = some rule.id ∧ r.occurrences = 0 ∧ r.transactionIds = []
        ∧ r.isExclude = false := by
    rcases hty with rfl | ⟨t, rest, rfl, h⟩
    · simp only [ruleEntry, hmatch]
      rw [if_pos (by simp), if_pos ⟨trivial, Or.inr hpat⟩]
      exact ⟨_, List.mem_singleton_self _, rfl, rfl, rfl, rfl⟩
    · simp only [ruleEntry, hmatch]
      rw [if_pos (by simp), if_pos ⟨by simpa using h, Or.inr hpat⟩]
      exact ⟨_, List.mem_singleton_self _, rfl, rfl, rfl, rfl⟩
  obtain ⟨r, hre, hfields⟩ := hentry
  exact ⟨r,
    mem_detect_iff.2 (Or.inl ⟨mem_detectManual_iff.2 ⟨rule, hrule, hen, hre⟩, hfields.2.2.2⟩),
    hfields⟩

/-- C9 witness: `orphanExcludeRule` against an empty transaction list
contributes a projected entry to the merged output. -/
theorem exclusion_zero_matches_projected_witness :
    ∃ r ∈ detectRecurringTransactions 0 [] 3 [orphanExcludeRule],
      r.ruleId = some orphanExcludeRule.id ∧ r.occurrences = 0
        ∧ r.transactionIds = [] ∧ r.isExclude = false :=
  exclusion_zero_matches_projected 0 [] [orphanExcludeRule] 3 orphanExcludeRule
    (List.mem_singleton_self _) rfl rfl (by decide) rfl (Or.inl rfl)

/-! ## Claim C10: automatic entries have a positive interval -/

/-- A description group of a sorted list is sorted. -/
theorem groupsOf_sorted {l g : List Transaction}
    (hl : List.Sorted dateLe l) (hg : g ∈ groupsOf l) : List.Sorted dateLe g := by
  obtain ⟨k, -, rfl⟩ := List.mem_map.1 hg
  exact List.Pairwise.sublist (List.filter_sublist l) hl

/-- The consecutive gaps of a chronologically sorted list are
non-negative. -/
theorem gaps_nonneg {l : List Transaction} (hl : List.Sorted dateLe l) :
    ∀ i ∈ gaps l, 0 ≤ i := by
  induction l with
  | nil => simp [gaps]
  | cons a tl ih =>
    cases tl with
    | nil => simp [gaps]
    | cons b rest =>
      intro i hi
      rw [List.sorted_cons] at hl
      simp only [gaps, List.mem_cons] at hi
      rcases hi with rfl | hi
      · have := hl.1 b (List.mem_cons_self b rest)
        simp only [dateLe] at this
        omega
      · exact ih hl.2 i hi

/-- A gap that passes the deviation test against a positive mean is at
least one day. -/
theorem gap_ge_one_of_dev {avg : ℚ} {i : Int} (hdev : devLtB avg i = true)
    (hpos : 0 < avg) (hnn : 0 ≤ i) : 1 ≤ i := by
  unfold devLtB at hdev
  rw [if_neg (ne_of_gt hpos), decide_eq_true_eq] at hdev
  have h5 : |(i : ℚ) - avg| < 1 / 5 * avg := (div_lt_iff hpos).1 hdev
  have habs := abs_lt.1 h5
  have hipos : (0 : ℚ) < i := by linarith
  have : (0 : Int) < i := by exact_mod_cast hipos
  omega

/-- A list of integers that are all at least one sums to at least its
length. -/
theorem len_le_sum_int {l : List Int} (h : ∀ i ∈ l, (1 : Int) ≤ i) :
    (l.length : Int) ≤ l.sum := by
  induction l with
  | nil => simp
  | cons a tl ih =>
    simp only [List.length_cons, List.sum_cons]
    have ha := h a (List.mem_cons_self a tl)
    have htl := ih (fun i hi => h i (List.mem_cons_of_mem a hi))
    push_cast
    push_cast at htl
    linarith

/-- If a group's gaps all pass the deviation test and its mean gap is
positive, the mean gap is at least one day. -/
theorem one_le_avgInterval {txns : List Transaction}
    (hall : (gaps txns).all (devLtB (avgIntervalOf txns)) = true)
    (hpos : 0 < avgIntervalOf txns)
    (hnn : ∀ i ∈ gaps txns, 0 ≤ i) : 1 ≤ avgIntervalOf txns := by
  have hne := gaps_ne_nil_of_avg_pos hpos
  have hlen : (0 : ℚ) < ((gaps txns).length : ℚ) := by
    have := List.length_pos_of_ne_nil hne
    exact_mod_cast this
  have hone : ∀ i ∈ gaps txns, (1 : Int) ≤ i := fun i hi =>
    gap_ge_one_of_dev (List.all_eq_true.1 hall i hi) hpos (hnn i hi)
  have hsum := len_le_sum_int hone
  unfold avgIntervalOf
  rw [le_div_iff hlen, one_mul]
  exact_mod_cast hsum

/-- `Math.round` of a rational that is at least one is at least one. -/
theorem one_le_roundQ {q : ℚ} (h : 1 ≤ q) : 1 ≤ roundQ q := by
  unfold roundQ
  refine Int.le_floor.2 ?_
  push_cast
  linarith

/-- C10: every automatic entry (one without a `ruleId`) of the merged
output has `intervalDays ≥ 1`: the groups handed to `analyzeGroup` are
chronologically sorted, so their day-gaps are non-negative integers; a zero
gap has relative deviation 1 from the positive mean and fails the `< 0.2`
test, so every gap is ≥ 1, hence the mean is ≥ 1 and so is its rounding. -/
theorem automatic_intervalDays_positive (today : Int) (txs : List Transaction)
    (minOcc : Nat) (rules : List ManualRecurringRule) (r : RecurringTransaction)
    (hr : r ∈ detectRecurringTransactions today txs minOcc rules)
    (hauto : r.ruleId = none) : 1 ≤ r.intervalDays := by
  rcases mem_detect_iff.1 hr with ⟨hm, -⟩ | ha
  · obtain ⟨rule, -, -, hre⟩ := mem_detectManual_iff.1 hm
    rw [(ruleEntry_basic hre).1] at hauto
    exact absurd hauto (by simp)
  · obtain ⟨g, hg, hga⟩ := mem_automatic_iff.1 ha
    obtain ⟨-, hall, hpos, lastT, -, -, hrec⟩ := analyzeGroup_spec hga
    have hsorted : List.Sorted dateLe g :=
      groupsOf_sorted (List.sorted_insertionSort dateLe _) hg
    have h1 := one_le_avgInterval hall hpos (gaps_nonneg hsorted)
    rw [hrec]
    exact one_le_roundQ h1

/-- C10 witness: the automatic entry detected for `regularGroup` has no
rule id and interval at least one. -/
theorem automatic_intervalDays_positive_witness :
    ∃ r, r ∈ detectRecurringTransactions (toDays ⟨2024, 3, 1⟩ : Int) regularGroup 3 []
      ∧ r.ruleId = none ∧ 1 ≤ r.intervalDays :=
  have hne : detectRecurringTransactions (toDays ⟨2024, 3, 1⟩ : Int) regularGroup 3 [] ≠ [] := by
    intro hnil
    have hlen : (detectRecurringTransactions (toDays ⟨2024, 3, 1⟩ : Int) regularGroup 3 []).length = 1 := by
      with_unfolding_all decide
    rw [hnil] at hlen
    exact absurd hlen (by simp)
  have h9 : ((detectRecurringTransactions (toDays ⟨2024, 3, 1⟩ : Int) regularGroup 3 []).head?).map
      (fun r => r.ruleId) = some none := by
    with_unfolding_all decide
  have hid : ((detectRecurringTransactions (toDays ⟨2024, 3, 1⟩ : Int) regularGroup 3 []).head hne).ruleId = none := by
    rw [List.head?_eq_head hne] at h9
    simpa using h9
  ⟨(detectRecurringTransactions (toDays ⟨2024, 3, 1⟩ : Int) regularGroup 3 []).head hne,
   List.head_mem hne, hid,
   automatic_intervalDays_positive (toDays ⟨2024, 3, 1⟩ : Int) regularGroup 3 [] _
     (List.head_mem hne) hid⟩

/-! ## Claim C7: the worked projectLiquidity example -/

set_option maxHeartbeats 4000000 in
/-- C7: `projectLiquidity` with balance 1000, no incomes, one automatic
expense (amount 100, interval 30 days, last charged 2024-01-01), horizon 90
and start date 2024-01-15 yields exactly 91 points, one per consecutive day
from day 0; the expense is projected on days 16, 46 and 76 (2024-01-31,
2024-03-01, 2024-03-31), exactly where the `event` field is set, and the
running balance drops by exactly 100 there (1000 → 900 → 800 → 700) and is
unchanged on every other day. -/
theorem projectLiquidity_example :
    (projectLiquidity 10 1000 [] [sampleExpense] 90 ⟨2024, 1, 15⟩).isSome = true
    ∧ (projectLiquidity 10 1000 [] [sampleExpense] 90 ⟨2024, 1, 15⟩).map List.length = some 91
    ∧ (projectLiquidity 10 1000 [] [sampleExpense] 90 ⟨2024, 1, 15⟩).map
        (fun F => F.map (fun p => p.date))
        = some ((List.range 91).map (fun i => ofDaysZ ((toDays ⟨2024, 1, 15⟩ : Int) + i)))
    ∧ (projectLiquidity 10 1000 [] [sampleExpense] 90 ⟨2024, 1, 15⟩).map
        (fun F => F.map (fun p => p.event.isSome))
        = some ((List.range 91).map (fun i => decide (i = 16 ∨ i = 46 ∨ i = 76)))
    ∧ (projectLiquidity 10 1000 [] [sampleExpense] 90 ⟨2024, 1, 15⟩).map
        (fun F => F.map (fun p => p.projectedBalance))
        = some ((List.range 91).map (fun i =>
            if i < 16 then (1000 : ℚ) else if i < 46 then 900 else if i < 76 then 800 else 700)) := by
  refine ⟨?_, ?_, ?_, ?_, ?_⟩
  · with_unfolding_all decide
  · with_unfolding_all decide
  · with_unfolding_all decide
  · with_unfolding_all decide
  · with_unfolding_all decide

/-! ## Claim C8: the safe-to-spend formula -/

/-- C8: whenever `calculateSafeToSpend` returns, its `safeToSpend` equals
`max 0 (currentBalance − reservedForBills − buffer)`; in particular it is 0
as soon as `reservedForBills + buffer` exceeds the balance, it is never
negative, and for balance 2000, buffer 500 and computed reserve 300 it is
1200. -/
theorem safeToSpend_formula (fuel : Nat) (today : Int) (currentBalance : ℚ)
    (transactions : List Transaction) (manualRules : List ManualRecurringRule)
    (buffer : ℚ) (r : SafeToSpendDetails)
    (h : calculateSafeToSpend fuel today currentBalance transactions manualRules buffer = some r) :
    r.safeToSpend = max 0 (currentBalance - r.reservedForBills - buffer)
    ∧ 0 ≤ r.safeToSpend
    ∧ (currentBalance < r.reservedForBills + buffer → r.safeToSpend = 0)
    ∧ (currentBalance = 2000 ∧ buffer = 500 ∧ r.reservedForBills = 300 → r.safeToSpend = 1200) := by
  simp only [calculateSafeToSpend] at h
  split at h
  · exact absurd h (by simp)
  next payday hpd =>
    split at h
    · exact absurd h (by simp)
    next reserved hres =>
      injection h with h
      subst h
      refine ⟨rfl, le_max_left 0 _, fun hlt => ?_, ?_⟩
      · simp only
        apply max_eq_left
        linarith
      · rintro ⟨rfl, rfl, h300⟩
        simp only at h300
        simp only [h300]
        norm_num

/-- C8 witness: on an empty transaction set with balance 2000 and buffer
500 the calculator returns reserve 0 and safe-to-spend 1500, which follows
the clamped formula. -/
theorem safeToSpend_formula_witness :
    calculateSafeToSpend 1 0 2000 [] [] 500
        = some { safeToSpend := 1500, reservedForBills := 0, daysUntilPayday := 30,
                 nextPayday := 30, buffer := 500, totalBalance := 2000 }
    ∧ (1500 : ℚ) = max 0 (2000 - 0 - 500)
    ∧ (0 : ℚ) ≤ 1500 :=
  have h : calculateSafeToSpend 1 0 2000 [] [] 500
      = some { safeToSpend := 1500, reservedForBills := 0, daysUntilPayday := 30,
               nextPayday := 30, buffer := 500, totalBalance := 2000 } := by
    with_unfolding_all decide
  ⟨h, (safeToSpend_formula 1 0 2000 [] [] 500 _ h).1,
   (safeToSpend_formula 1 0 2000 [] [] 500 _ h).2.1⟩

/-! ## Claim C2: termination of the projection loops -/

/-- Every month has at least 28 days. -/
theorem daysInMonth_ge {y m : Nat} (h1 : 1 ≤ m) (h2 : m ≤ 12) :
    28 ≤ daysInMonth y m := by
  interval_cases m <;> simp [daysInMonth] <;> split_ifs <;> omega

/-- The monthly projection step preserves date validity. -/
theorem monthStep_valid : ∀ c : CivilDate, ValidDate c → ValidDate (monthStep c) := by
  rintro ⟨y, m, d⟩ ⟨hy, hm1, hm2, hd1, hd2⟩
  simp only at hy hm1 hm2 hd1 hd2
  unfold ValidDate monthStep addMonth lastDayOfMonth
  interval_cases m <;>
    simp_all [daysInMonth] <;>
    split_ifs <;> omega

/-- The monthly projection step strictly advances the day number. -/
theorem toDays_lt_monthStep : ∀ c : CivilDate, ValidDate c → toDays c < toDays (monthStep c) := by
  rintro ⟨y, m, d⟩ ⟨hy, hm1, hm2, hd1, hd2⟩
  simp only at hy hm1 hm2 hd1 hd2
  interval_cases m <;>
    simp_all [monthStep, addMonth, lastDayOfMonth, toDays, daysBeforeMonthN, daysInMonth,
      leapsBefore] <;>
    split_ifs at * <;> omega

/-- The first projected month-end date is valid when the start date is. -/
theorem firstMonthly_valid {c : CivilDate} (h : ValidDate c) : ValidDate (firstMonthly c) := by
  obtain ⟨hy, hm1, hm2, hd1, hd2⟩ := h
  have h28 := @daysInMonth_ge c.year c.month hm1 hm2
  have hld : ValidDate (lastDayOfMonth c) := by
    unfold ValidDate lastDayOfMonth
    exact ⟨hy, hm1, hm2, show 1 ≤ daysInMonth c.year c.month by omega, le_refl _⟩
  simp only [firstMonthly]
  split_ifs
  · exact monthStep_valid _ hld
  · exact hld
/-- With a positive interval, enough fuel makes the automatic projection
loop exit. -/
theorem projectAutoDates_isSome {interval startN days : Int} (hi : 1 ≤ interval) :
    ∀ (n : Nat) (next : Int), (startN + days + 1 - next).toNat ≤ n →
      (projectAutoDates n next interval startN days).isSome = true := by
  intro n
  induction n with
  | zero =>
    intro next hb
    simp only [projectAutoDates]
    rw [if_neg (by omega)]
    rfl
  | succ f ih =>
    intro next hb
    simp only [projectAutoDates]
    by_cases hc : next - startN ≤ days
    · rw [if_pos hc]
      have hrec := ih (next + interval) (by omega)
      rcases Option.isSome_iff_exists.1 hrec with ⟨l, hl⟩
      rw [hl]
      rfl
    · rw [if_neg hc]
      rfl

/-- With a zero interval and a next date inside the horizon, the automatic
projection loop never exits, whatever the fuel. -/
theorem projectAutoDates_zero_interval {next startN days : Int}
    (h : next - startN ≤ days) :
    ∀ n : Nat, projectAutoDates n next 0 startN days = none := by
  intro n
  induction n with
  | zero => simp only [projectAutoDates]; rw [if_pos h]
  | succ f ih =>
    simp only [projectAutoDates]
    rw [if_pos h]
    simp only [add_zero, ih, Option.map_none']

/-- Enough fuel makes the monthly projection loop exit (each step strictly
advances the date). -/
theorem projectMonthlyDates_isSome {startD : CivilDate} {days : Int} :
    ∀ (n : Nat) (next : CivilDate), ValidDate next →
      ((toDays startD : Int) + days + 1 - (toDays next : Int)).toNat ≤ n →
      (projectMonthlyDates n next startD days).isSome = true := by
  intro n
  induction n with
  | zero =>
    intro next hv hb
    simp only [projectMonthlyDates]
    rw [if_neg (by omega)]
    rfl
  | succ f ih =>
    intro next hv hb
    simp only [projectMonthlyDates]
    split_ifs with hc
    · have hlt := toDays_lt_monthStep next hv
      have hrec := ih (monthStep next) (monthStep_valid next hv) (by omega)
      rcases Option.isSome_iff_exists.1 hrec with ⟨l, hl⟩
      rw [hl]
      rfl
    · rfl

/-- With a positive interval, enough fuel makes the date-advancement loop
exit. -/
theorem advanceWhileBefore_isSome {interval now : Int} (hi : 1 ≤ interval) :
    ∀ (n : Nat) (next : Int), (now - next).toNat ≤ n →
      (advanceWhileBefore n next interval now).isSome = true := by
  intro n
  induction n with
  | zero =>
    intro next hb
    simp only [advanceWhileBefore]
    rw [if_neg (by omega)]
    rfl
  | succ f ih =>
    intro next hb
    simp only [advanceWhileBefore]
    split_ifs with hc
    · exact ih (next + interval) (by omega)
    · rfl

/-- The date-advancement loop exits for any fuel when the entry's last
date is not before the reference date, or with enough fuel when its
interval is positive. -/
theorem advance_ok {interval now : Int} (next : Int)
    (h : 1 ≤ interval ∨ now ≤ next) (n : Nat) (hb : (now - next).toNat ≤ n) :
    (advanceWhileBefore n next interval now).isSome = true := by
  rcases h with hi | hle
  · exact advanceWhileBefore_isSome hi n next hb
  · cases n <;> simp only [advanceWhileBefore] <;> rw [if_neg (by omega)] <;> rfl

/-- Enough fuel projects a single recurring entry, provided that an
automatic (rule-less) entry has a positive interval. -/
theorem applyEntry_isSome (startD : CivilDate) (days : Int) (ty : EventType)
    (rt : RecurringTransaction) (hv : ValidDate startD)
    (hr : rt.ruleId = none → 1 ≤ rt.intervalDays) (n : Nat)
    (hb1 : ((toDays startD : Int) + days + 1 - (rt.lastCharged + rt.intervalDays)).toNat ≤ n)
    (hb2 : ((toDays startD : Int) + days + 1 - (toDays (firstMonthly startD) : Int)).toNat ≤ n) :
    ∀ m, (applyEntry n startD days ty m rt).isSome = true := by
  intro m
  simp only [applyEntry]
  split_ifs with hrid
  · have hrec := projectMonthlyDates_isSome n (firstMonthly startD) (firstMonthly_valid hv) hb2
    rcases Option.isSome_iff_exists.1 hrec with ⟨l, hl⟩
    rw [hl]
    rfl
  · have hi : 1 ≤ rt.intervalDays := hr (Option.not_isSome_iff_eq_none.1 hrid)
    have hrec := projectAutoDates_isSome hi n (rt.lastCharged + rt.intervalDays) hb1
    rcases Option.isSome_iff_exists.1 hrec with ⟨l, hl⟩
    rw [hl]
    rfl

/-- Enough fuel projects a whole list of recurring entries. -/
theorem applyEntries_isSome (startD : CivilDate) (days : Int) (ty : EventType)
    (hv : ValidDate startD) :
    ∀ (l : List RecurringTransaction),
      (∀ e ∈ l, e.ruleId = none → 1 ≤ e.intervalDays) →
      ∀ n : Nat,
      (l.map (fun e =>
        ((toDays startD : Int) + days + 1 - (e.lastCharged + e.intervalDays)).toNat)).foldr max 0 ≤ n →
      ((toDays startD : Int) + days + 1 - (toDays (firstMonthly startD) : Int)).toNat ≤ n →
      ∀ m, (applyEntries n startD days ty m l).isSome = true := by
  intro l
  induction l with
  | nil => intro _ n _ _ m; rfl
  | cons e rest ih =>
    intro h n hb1 hb2 m
    simp only [List.map_cons, List.foldr_cons] at hb1
    simp only [applyEntries]
    have h1 := applyEntry_isSome startD days ty e hv (h e (List.mem_cons_self e rest)) n
      (by omega) hb2 m
    rcases Option.isSome_iff_exists.1 h1 with ⟨m2, hm2⟩
    rw [hm2]
    exact ih (fun x hx => h x (List.mem_cons_of_mem e hx)) n (by omega) hb2 m2

/-- Enough fuel computes the reservation fold, provided every expense
entry has a positive interval or a last date not before today. -/
theorem reserveFold_isSome (today payday : Int) :
    ∀ (l : List RecurringTransaction),
      (∀ e ∈ l, 1 ≤ e.intervalDays ∨ today ≤ e.lastCharged) →
      ∀ n : Nat, (l.map (fun e => (today - e.lastCharged).toNat)).foldr max 0 ≤ n →
      (reserveFold n today payday l).isSome = true := by
  intro l
  induction l with
  | nil => intro _ n _; rfl
  | cons e rest ih =>
    intro h n hb
    simp only [List.map_cons, List.foldr_cons] at hb
    simp only [reserveFold]
    have h1 := advance_ok e.lastCharged (h e (List.mem_cons_self e rest)) n (by omega)
    rcases Option.isSome_iff_exists.1 h1 with ⟨nx, hnx⟩
    rw [hnx]
    have h2 := ih (fun x hx => h x (List.mem_cons_of_mem e hx)) n (by omega)
    rcases Option.isSome_iff_exists.1 h2 with ⟨r, hr⟩
    rw [hr]
    rfl

/-- The date-advancement loop is a no-op when the start is not before the
reference date. -/
theorem advance_noop {interval now next : Int} (h : ¬ next < now) :
    ∀ n : Nat, advanceWhileBefore n next interval now = some next := by
  intro n
  cases n <;> simp only [advanceWhileBefore] <;> rw [if_neg h]

/-- With a zero interval and a start strictly before the reference date,
the date-advancement loop never exits, whatever the fuel. -/
theorem advance_diverges_zero {now next : Int} (h : next < now) :
    ∀ n : Nat, advanceWhileBefore n next 0 now = none := by
  intro n
  induction n with
  | zero => simp only [advanceWhileBefore]; rw [if_pos h]
  | succ f ih =>
    simp only [advanceWhileBefore]
    rw [if_pos h]
    simpa using ih

/-- C2 counterexample: `sameDayGymPair` with `gymRule` is a concrete
transaction list and rule list on which `calculateSafeToSpend` never
returns, for any amount of fuel: the rule's two matches share one trade
date, so the detected expense entry has `intervalDays = 0` with a past
`lastCharged`, and the expense-advancement `while` loop never makes
progress.  This refutes the claim that the loops exit for every finite
transaction list, rule list, balance, buffer, horizon and start date. -/
theorem safeToSpend_divergence_cex :
    (detectRecurringTransactions (toDays ⟨2024, 2, 1⟩ : Int)
        (sameDayGymPair.filter (fun t => decide (t.type = TxType.debit))) 2 [gymRule]).map
        (fun r => (r.intervalDays, r.lastCharged, r.ruleId))
      = [(0, 738885, some "r1")]
    ∧ (toDays ⟨2024, 1, 1⟩ : Int) = 738885
    ∧ ¬ ∃ n, (calculateSafeToSpend n (toDays ⟨2024, 2, 1⟩ : Int) 2000 sameDayGymPair
        [gymRule] 500).isSome = true := by
  refine ⟨by with_unfolding_all decide, by decide, ?_⟩
  rintro ⟨n, hn⟩
  have hq : (detectRecurringTransactions (toDays ⟨2024, 2, 1⟩ : Int)
      (sameDayGymPair.filter (fun t => decide (t.type = TxType.debit))) 2 [gymRule]).map
      (fun r => (r.intervalDays, r.lastCharged, r.ruleId)) = [(0, 738885, some "r1")] := by
    with_unfolding_all decide
  have h0 : calculateSafeToSpend n (toDays ⟨2024, 2, 1⟩ : Int) 2000 sameDayGymPair
      [gymRule] 500 = none := by
    simp only [calculateSafeToSpend]
    cases hL : detectRecurringTransactions (toDays ⟨2024, 2, 1⟩ : Int)
        (sameDayGymPair.filter (fun t => decide (t.type = TxType.debit))) 2 [gymRule] with
    | nil =>
      rw [hL] at hq
      simp at hq
    | cons e rest =>
      rw [hL] at hq
      simp only [List.map_cons, List.cons.injEq, Prod.mk.injEq] at hq
      obtain ⟨⟨hint2, hlast2, -⟩, -⟩ := hq
      split
      · rfl
      next payday hpd =>
        simp only [reserveFold]
        rw [hint2, hlast2, advance_diverges_zero (by decide) n]
  rw [h0] at hn
  simp at hn
/-- C2 (amended): the engine loops always make progress and exit provided
every entry they advance has a positive `intervalDays` (or, for the
safe-to-spend loops, a last date not before the reference date):
`projectLiquidity` terminates for every balance, horizon and valid start
date when every rule-less entry has `intervalDays ≥ 1` (rule-backed entries
use the always-advancing month-end loop), and `calculateSafeToSpend`
terminates for every transaction list, rule list, balance and buffer whose
detected entries each have `intervalDays ≥ 1` or `lastCharged ≥ today`.
Automatic entries always satisfy `intervalDays ≥ 1`, but a manual rule
whose matches share one trade date yields `intervalDays = 0`
(`safeToSpend_divergence_cex`), so the unamended claim fails. -/
theorem engine_loops_terminate :
    (∀ (currentBalance : ℚ) (incomes expenses : List RecurringTransaction)
        (daysToProject : Int) (startDate : CivilDate),
      ValidDate startDate →
      (∀ e ∈ incomes ++ expenses, e.ruleId = none → 1 ≤ e.intervalDays) →
      ∃ n, (projectLiquidity n currentBalance incomes expenses daysToProject startDate).isSome = true)
    ∧ (∀ (today : Int) (currentBalance : ℚ) (transactions : List Transaction)
        (manualRules : List ManualRecurringRule) (buffer : ℚ),
      (∀ e ∈ detectRecurringTransactions today
            (transactions.filter (fun t => decide (t.type = TxType.credit))) 2 manualRules
          ++ detectRecurringTransactions today
            (transactions.filter (fun t => decide (t.type = TxType.debit))) 2 manualRules,
        1 ≤ e.intervalDays ∨ today ≤ e.lastCharged) →
      ∃ n, (calculateSafeToSpend n today currentBalance transactions manualRules buffer).isSome = true) := by
  constructor
  · intro bal incomes expenses days startD hv hint
    obtain ⟨N, hN1, hN2, hN3⟩ :
        ∃ N : Nat,
          ((incomes.map (fun e =>
            ((toDays startD : Int) + days + 1 - (e.lastCharged + e.intervalDays)).toNat)).foldr max 0) ≤ N
          ∧ ((expenses.map (fun e =>
            ((toDays startD : Int) + days + 1 - (e.lastCharged + e.intervalDays)).toNat)).foldr max 0) ≤ N
          ∧ (((toDays startD : Int) + days + 1 - (toDays (firstMonthly startD) : Int)).toNat) ≤ N :=
      ⟨max ((incomes.map (fun e =>
          ((toDays startD : Int) + days + 1 - (e.lastCharged + e.intervalDays)).toNat)).foldr max 0)
        (max ((expenses.map (fun e =>
          ((toDays startD : Int) + days + 1 - (e.lastCharged + e.intervalDays)).toNat)).foldr max 0)
          (((toDays startD : Int) + days + 1 - (toDays (firstMonthly startD) : Int)).toNat)),
        by omega, by omega, by omega⟩
    refine ⟨N, ?_⟩
    simp only [projectLiquidity]
    have h1 := applyEntries_isSome startD days .income hv incomes
      (fun e he => hint e (List.mem_append_left _ he)) N hN1 hN3 []
    rcases Option.isSome_iff_exists.1 h1 with ⟨m1, hm1⟩
    rw [hm1]
    dsimp only
    have h2 := applyEntries_isSome startD days .expense hv expenses
      (fun e he => hint e (List.mem_append_right _ he)) N hN2 hN3 m1
    rcases Option.isSome_iff_exists.1 h2 with ⟨m2, hm2⟩
    rw [hm2]
    rfl
  · intro today bal txs rules buf hint
    cases hmp : ((detectRecurringTransactions today
        (txs.filter (fun t => decide (t.type = TxType.credit))) 2 rules).insertionSort
        amountGe).head? with
    | none =>
      refine ⟨((detectRecurringTransactions today
          (txs.filter (fun t => decide (t.type = TxType.debit))) 2 rules).map
          (fun e => (today - e.lastCharged).toNat)).foldr max 0, ?_⟩
      simp only [calculateSafeToSpend]
      rw [hmp]
      dsimp only
      have hres := reserveFold_isSome today (today + 30)
        (detectRecurringTransactions today
          (txs.filter (fun t => decide (t.type = TxType.debit))) 2 rules)
        (fun e he => hint e (List.mem_append_right _ he)) _ le_rfl
      rcases Option.isSome_iff_exists.1 hres with ⟨r, hr⟩
      rw [hr]
      rfl
    | some p =>
      have hpmem : p ∈ detectRecurringTransactions today
          (txs.filter (fun t => decide (t.type = TxType.credit))) 2 rules :=
        (List.mem_insertionSort amountGe).1 (List.mem_of_mem_head? (Option.mem_def.2 hmp))
      obtain ⟨N, hN1, hN2⟩ :
          ∃ N : Nat, (today - p.lastCharged).toNat ≤ N
            ∧ (((detectRecurringTransactions today
                (txs.filter (fun t => decide (t.type = TxType.debit))) 2 rules).map
                (fun e => (today - e.lastCharged).toNat)).foldr max 0) ≤ N :=
        ⟨max ((today - p.lastCharged).toNat)
          (((detectRecurringTransactions today
              (txs.filter (fun t => decide (t.type = TxType.debit))) 2 rules).map
              (fun e => (today - e.lastCharged).toNat)).foldr max 0),
          by omega, by omega⟩
      refine ⟨N, ?_⟩
      simp only [calculateSafeToSpend]
      rw [hmp]
      dsimp only
      have hadv := advance_ok p.lastCharged (hint p (List.mem_append_left _ hpmem)) N hN1
      rcases Option.isSome_iff_exists.1 hadv with ⟨pd, hpd⟩
      rw [hpd]
      dsimp only
      have hres := reserveFold_isSome today pd
        (detectRecurringTransactions today
          (txs.filter (fun t => decide (t.type = TxType.debit))) 2 rules)
        (fun e he => hint e (List.mem_append_right _ he)) N hN2
      rcases Option.isSome_iff_exists.1 hres with ⟨r, hr⟩
      rw [hr]
      rfl

/-- C2 amended-claim witness: both engine functions terminate on concrete
inputs satisfying the hypotheses. -/
theorem engine_loops_terminate_witness :
    (∃ n, (projectLiquidity n 1000 [] [sampleExpense] 90 ⟨2024, 1, 15⟩).isSome = true)
    ∧ (∃ n, (calculateSafeToSpend n 0 2000 [] [] 500).isSome = true) := by
  constructor
  · refine engine_loops_terminate.1 1000 [] [sampleExpense] 90 ⟨2024, 1, 15⟩ (by decide) ?_
    intro e he
    simp only [List.nil_append, List.mem_singleton] at he
    subst he
    intro _
    decide
  · refine engine_loops_terminate.2 0 2000 [] [] 500 ?_
    intro e he
    have h1 : detectRecurringTransactions 0
        (([] : List Transaction).filter (fun t => decide (t.type = TxType.credit))) 2 [] = [] := by
      with_unfolding_all decide
    have h2 : detectRecurringTransactions 0
        (([] : List Transaction).filter (fun t => decide (t.type = TxType.debit))) 2 [] = [] := by
      with_unfolding_all decide
    rw [h1, h2] at he
    simp at he

end EB
